import Mathlib

/-!
Shallow embedding of the Opus audio decode-and-playback pipeline in
`src/wasm/auddec.cpp` (moonlight-tizen).

The embedding follows the source:
* init-time sizing arithmetic of `AudDecInit` (jitter frames, buffer pool,
  packet-queue capacity, ring capacity, AL-format channel fallback);
* the encoded-packet intake queue and `AudDecDecodeAndPlaySample`;
* the feeder loop of `feederLoop`: drain of the packet queue into the PCM
  ring (with newest-frame eviction on overflow), the jitter-startup gate,
  and the processed-buffer recycle step (real uploads, PLC fill, batched
  unqueue/queue, source restart).

External collaborators (the Opus decoder, OpenAL) are modelled as oracles:
`opus_multistream_decode` becomes a function from the packet bytes to the
return code together with the contents the call leaves in the scratch
buffer, and the AL processed count / source state are inputs of a tick.
Machine integers are modelled as `Nat`/`Int`; all quantities involved stay
far below 2^31 under the positivity hypotheses used, so no wrap-around
modelling is needed.
-/

namespace AudDec

/-- Largest accepted encoded-packet size (`kMaxPacketBytes` in the source). -/
def kMaxPacketBytes : Int := 4096

/-- The fields of `OPUS_MULTISTREAM_CONFIGURATION` that the sizing
arithmetic reads (`opusConfig->channelCount / samplesPerFrame / sampleRate`). -/
structure OpusConfig where
  channelCount : Nat
  samplesPerFrame : Nat
  sampleRate : Nat
deriving DecidableEq

/-- `targetJitterMs`: the override when nonzero, else the default 100 ms
(`AudDecInit`, line 243). -/
def targetJitterMs (ov : Nat) : Nat :=
  if ov ≠ 0 then ov else 100

/-- `s_jitterFrames`: ceiling division implemented in the source as
`(targetJitterMs * sampleRate + samplesPerFrame*1000 - 1) / (samplesPerFrame*1000)`
(`AudDecInit`, lines 244-245). -/
def s_jitterFrames (cfg : OpusConfig) (ov : Nat) : Nat :=
  (targetJitterMs ov * cfg.sampleRate + cfg.samplesPerFrame * 1000 - 1)
    / (cfg.samplesPerFrame * 1000)

/-- `s_numBuffers = std::max(10, s_jitterFrames)` (`AudDecInit`, line 246). -/
def s_numBuffers (cfg : OpusConfig) (ov : Nat) : Nat :=
  max 10 (s_jitterFrames cfg ov)

/-- `burstSlack = s_jitterFrames*2` (`AudDecInit`, line 247). -/
def burstSlack (cfg : OpusConfig) (ov : Nat) : Nat :=
  s_jitterFrames cfg ov * 2

/-- `s_ringCap = s_jitterFrames + burstSlack` (`AudDecInit`, line 248). -/
def s_ringCap (cfg : OpusConfig) (ov : Nat) : Nat :=
  s_jitterFrames cfg ov + burstSlack cfg ov

/-- `s_pktCap = s_jitterFrames * 4`, raised to 64 when below it
(`AudDecInit`, lines 331-332). -/
def s_pktCap (cfg : OpusConfig) (ov : Nat) : Nat :=
  if s_jitterFrames cfg ov * 4 < 64 then 64 else s_jitterFrames cfg ov * 4

/-- The integer `frameDurationMs` the source computes for logging
(`AudDecInit`, line 250): C integer division. -/
def frameDurationMsInt (cfg : OpusConfig) : Nat :=
  cfg.samplesPerFrame * 1000 / cfg.sampleRate

/-- The effective channel count after `AudDecInit`'s AL-format selection
(lines 277-304): `s_channelCount` is overwritten to 2 when the 5.1/7.1 AL
format is unavailable, and for any channel count other than 2/6/8.
`surround51`/`surround71` model whether `alGetEnumValue` returns a usable
format enum for `AL_FORMAT_51CHN16` / `AL_FORMAT_71CHN16`. -/
def effectiveChannelCount (cfg : OpusConfig) (surround51 surround71 : Bool) : Nat :=
  match cfg.channelCount with
  | 2 => 2
  | 6 => if surround51 then 6 else 2
  | 8 => if surround71 then 8 else 2
  | _ => 2

/-- `s_frameElems = s_samplesPerFrame * s_channelCount`, computed in
`AudDecInit` (line 326) after the format fallback has possibly overwritten
`s_channelCount`. -/
def s_frameElems (cfg : OpusConfig) (surround51 surround71 : Bool) : Nat :=
  cfg.samplesPerFrame * effectiveChannelCount cfg surround51 surround71

/-- Number of `opus_int16` elements of `feederLoop`'s decode scratch buffer
(`feederLoop`, line 119): `s_samplesPerFrame * s_channelCount`, read after
`AudDecInit` has already replaced `s_channelCount` by the effective
(possibly downmixed) count. -/
def decodeBufElems (cfg : OpusConfig) (surround51 surround71 : Bool) : Nat :=
  cfg.samplesPerFrame * effectiveChannelCount cfg surround51 surround71

/-- Channel count the Opus multistream decoder is created with
(`AudDecInit`, lines 338-341): the untouched `opusConfig->channelCount`. -/
def opusDecoderChannels (cfg : OpusConfig) : Nat :=
  cfg.channelCount

/-- Number of `opus_int16` samples `opus_multistream_decode` writes for a
full frame: `samplesPerFrame` per decoder channel. -/
def opusDecodeOutElems (cfg : OpusConfig) : Nat :=
  cfg.samplesPerFrame * opusDecoderChannels cfg

/-- A decoded PCM frame: the interleaved `opus_int16` samples. -/
abbrev Frame := List Int

/-- The log lines the pipeline can emit (`ClLogMessage` calls), tagged with
the data that decides whether/what is logged. -/
inductive LogEvent where
  /-- "packet length %d out of range, dropping" -/
  | outOfRange (len : Int)
  /-- "packet queue overflow, dropping oldest" -/
  | queueOverflow
  /-- "PCM ring overflow ... #%llu" (with the running overflow count) -/
  | ringOverflow (n : Nat)
  /-- "Opus decode failed rc=%d" -/
  | decodeFail (rc : Int)
  /-- "jitter buffer ready ..., starting AL submission" -/
  | jitterReadyMsg
  /-- "%d lost packet(s), filling with PLC (total=%llu)" -/
  | plcFill (n : Nat) (total : Nat)
  /-- "ring drained (submitted %d real + %d PLC)" -/
  | ringDrained (realN plcN : Nat)
  /-- "AL pool fully consumed (%d/%d slots), underrun risk" -/
  | poolConsumed (processedN : Nat)
  /-- "source not playing (state=%d), restarting" -/
  | notPlaying
deriving DecidableEq

/-- The OpenAL calls the feeder issues towards the sink, in program order:
`alSourceUnqueueBuffers`, `alBufferData` (recorded with the PCM uploaded),
`alSourceQueueBuffers`, `alSourcePlay`. -/
inductive SinkOp where
  | unqueue (n : Nat)
  | upload (pcm : Frame)
  | queue (n : Nat)
  | play
deriving DecidableEq

-- ─── Encoded-packet intake queue ──────────────────────────────────────────────

/-- A slot of `s_pktQueue`: the copied-in bytes and the length field. -/
structure PacketSlot where
  data : List Nat
  length : Int
deriving DecidableEq, Inhabited

/-- The mutable state of the intake queue: the slot array and the
`s_pktHead` / `s_pktTail` / `s_pktCount` indices. Capacity `s_pktCap` is
passed to the operations. -/
structure IntakeState where
  slots : List PacketSlot
  head : Nat
  tail : Nat
  count : Nat
deriving DecidableEq

/-- `AudDecDecodeAndPlaySample` (lines 420-443): no-op when the feeder is
not running; drops out-of-range lengths; under the lock, evicts the oldest
packet when the queue is full, then copies the sample into the tail slot.
Returns the new intake state together with the log lines emitted. -/
def submitPacket (running : Bool) (cap : Nat) (st : IntakeState)
    (sampleData : List Nat) (sampleLength : Int) : IntakeState × List LogEvent :=
  if !running then (st, [])
  else if sampleLength ≤ 0 || sampleLength > kMaxPacketBytes then
    (st, [.outOfRange sampleLength])
  else
    let (st1, logs1) :=
      if st.count ≥ cap then
        ({ st with head := (st.head + 1) % cap, count := st.count - 1 },
         [LogEvent.queueOverflow])
      else (st, ([] : List LogEvent))
    let slot : PacketSlot :=
      { data := sampleData.take sampleLength.toNat, length := sampleLength }
    ({ st1 with slots := st1.slots.set st1.tail slot,
                tail := (st1.tail + 1) % cap,
                count := st1.count + 1 },
     logs1)

-- ─── PCM ring buffer ─────────────────────────────────────────────────────────
-- The ring (lines 72-98) is modelled by the list of frames it holds, oldest
-- first: `s_ringHead` is the list head, `s_ringTail` the position after the
-- last element, `s_ringSize` the list length.

/-- `ringPushBack`: write a frame at the tail slot. -/
def ringPushBack (ring : List Frame) (f : Frame) : List Frame :=
  ring ++ [f]

/-- `ringPopFront`: drop the oldest frame. -/
def ringPopFront (ring : List Frame) : List Frame :=
  ring.tail

/-- `ringPopBack`: drop the newest frame. -/
def ringPopBack (ring : List Frame) : List Frame :=
  ring.dropLast

-- ─── Feeder loop, step 1: drain the packet queue into the ring ───────────────

/-- Oracle for `opus_multistream_decode` on a real packet: from the packet
bytes and length, the return code and the contents the call leaves in the
decode scratch buffer. -/
abbrev DecodeOracle := List Nat → Int → Int × Frame

/-- One iteration of the drain loop body after the packet has been popped
(`feederLoop`, lines 141-158): evict the newest ring frame when the ring is
full (logging rate-limited to the first 3 overflows and then every 100th),
then decode; a positive return pushes the scratch contents, otherwise the
failure is logged and the frame discarded. -/
def drainStep (ringCap : Nat) (dec : DecodeOracle) (slot : PacketSlot)
    (ring : List Frame) (ovf : Nat) : List Frame × Nat × List LogEvent :=
  let (ring1, ovf1, logs1) :=
    if ring.length ≥ ringCap then
      (ringPopBack ring, ovf + 1,
        if ovf + 1 ≤ 3 || (ovf + 1) % 100 == 0 then
          [LogEvent.ringOverflow (ovf + 1)]
        else [])
    else (ring, ovf, ([] : List LogEvent))
  let d := dec slot.data slot.length
  if d.1 > 0 then
    (ringPushBack ring1 d.2, ovf1, logs1)
  else
    (ring1, ovf1, logs1 ++ [.decodeFail d.1])

/-- The full drain loop (`feederLoop`, lines 128-159): pop packets off the
intake under the lock until it is empty, feeding each through `drainStep`. -/
def drainAll (cap ringCap : Nat) (dec : DecodeOracle) (intake : IntakeState)
    (ring : List Frame) (ovf : Nat) :
    IntakeState × List Frame × Nat × List LogEvent :=
  if _h : intake.count = 0 then (intake, ring, ovf, [])
  else
    let slot := intake.slots.getD intake.head default
    let intake1 : IntakeState :=
      { intake with head := (intake.head + 1) % cap, count := intake.count - 1 }
    let (ring1, ovf1, logs1) := drainStep ringCap dec slot ring ovf
    let (intake2, ring2, ovf2, logs2) := drainAll cap ringCap dec intake1 ring1 ovf1
    (intake2, ring2, ovf2, logs1 ++ logs2)
termination_by intake.count
decreasing_by omega

-- ─── Feeder loop, step 3: recycle processed AL buffers ───────────────────────

/-- Oracle for `opus_multistream_decode` on a lost packet (null input),
indexed by the loop variable of the PLC fill loop: return code and the
contents the call leaves in the decode scratch buffer. -/
abbrev PlcOracle := Nat → Int × Frame

/-- The real-frame loop (`feederLoop`, lines 197-201): for each of `cnt`
slots, upload `ringFront()` then `ringPopFront()`. `cnt ≤ ring.length`
always holds at the call site (`cnt = min processed ringSize`). -/
def realFeed (ring : List Frame) (cnt : Nat) : List SinkOp × List Frame :=
  match cnt, ring with
  | 0, r => ([], r)
  | _ + 1, [] => ([], [])
  | k + 1, f :: rest =>
    let (ops, r1) := realFeed rest k
    (SinkOp.upload f :: ops, r1)

/-- The PLC fill loop (`feederLoop`, lines 206-211): for each slot index
from `start`, call the decoder with a null packet and upload the scratch
buffer; the decoder's return code is not inspected. -/
def plcFeed (plcDec : PlcOracle) (start cnt : Nat) : List SinkOp :=
  match cnt with
  | 0 => []
  | k + 1 =>
    let d := plcDec start
    SinkOp.upload d.2 :: plcFeed plcDec (start + 1) k

/-- Step 3 of the feeder loop with `processed > 0` (`feederLoop`, lines
189-228): compute the real/PLC split, unqueue all processed buffers in one
batch, upload real frames from the ring front then PLC frames, re-queue in
one batch, and restart the source when it is not playing. Returns the sink
calls in order, the remaining ring, the new PLC total, and the log lines. -/
def feedProcessed (numBuffers : Nat) (plcDec : PlcOracle) (srcPlaying : Bool)
    (processed : Nat) (ring : List Frame) (plcTotal : Nat) :
    List SinkOp × List Frame × Nat × List LogEvent :=
  let count := if processed < ring.length then processed else ring.length
  let plcCount := processed - count
  let (realOps, ring1) := realFeed ring count
  let (plcOps, plcLogs, plcTotal1) :=
    if plcCount > 0 then
      (plcFeed plcDec count plcCount,
       [LogEvent.plcFill plcCount (plcTotal + plcCount)],
       plcTotal + plcCount)
    else (([] : List SinkOp), ([] : List LogEvent), plcTotal)
  let drainedLogs :=
    if ring1.length = 0 then [LogEvent.ringDrained count plcCount] else []
  let poolLogs :=
    if processed ≥ numBuffers then [LogEvent.poolConsumed processed] else []
  let (playOps, playLogs) :=
    if srcPlaying then (([] : List SinkOp), ([] : List LogEvent))
    else ([SinkOp.play], [LogEvent.notPlaying])
  (SinkOp.unqueue processed :: realOps ++ plcOps ++ SinkOp.queue processed :: playOps,
   ring1, plcTotal1,
   plcLogs ++ drainedLogs ++ poolLogs ++ playLogs)

-- ─── One full feeder iteration ───────────────────────────────────────────────

/-- The feeder-private state that survives across loop iterations, plus the
intake it shares with the network callback. -/
structure FeederState where
  intake : IntakeState
  ring : List Frame
  jitterReady : Bool
  overflowCount : Nat
  plcTotal : Nat
deriving DecidableEq

/-- The external world of one loop iteration: the decode oracle, the AL
processed-buffer count, the PLC decode oracle, and whether the source is in
`AL_PLAYING` state when queried. -/
structure TickEnv where
  dec : DecodeOracle
  processed : Nat
  plcDec : PlcOracle
  srcPlaying : Bool

/-- One iteration of the `while (s_feederRunning)` loop (`feederLoop`,
lines 125-229): drain packets into the ring; while `jitterReady` is false,
`continue` without touching AL until the ring has reached `jitterFrames`
(logging "jitter buffer ready" the first time it has); `continue` when no
buffer is processed; otherwise run the recycle step. -/
def feederIter (cap ringCap jitterFrames numBuffers : Nat) (env : TickEnv)
    (st : FeederState) : FeederState × List SinkOp × List LogEvent :=
  let (intake1, ring1, ovf1, logs1) :=
    drainAll cap ringCap env.dec st.intake st.ring st.overflowCount
  if !st.jitterReady && ring1.length < jitterFrames then
    ({ st with intake := intake1, ring := ring1, overflowCount := ovf1 },
     [], logs1)
  else
    let readyLogs := if !st.jitterReady then [LogEvent.jitterReadyMsg] else []
    if env.processed = 0 then
      ({ st with intake := intake1, ring := ring1, overflowCount := ovf1,
                 jitterReady := true },
       [], logs1 ++ readyLogs)
    else
      let (ops, ring2, plcTotal2, logs2) :=
        feedProcessed numBuffers env.plcDec env.srcPlaying env.processed ring1 st.plcTotal
      ({ intake := intake1, ring := ring2, jitterReady := true,
         overflowCount := ovf1, plcTotal := plcTotal2 },
       ops, logs1 ++ readyLogs ++ logs2)

-- ─── Interleavings of network submissions and feeder iterations ──────────────

/-- An operation on the running pipeline: a network-thread `submitPacket`
call or one feeder loop iteration (with its environment). -/
inductive PipeOp where
  | submit (data : List Nat) (length : Int)
  | tick (env : TickEnv)

/-- Apply one operation to the pipeline state (the feeder is running). -/
def runOp (cap ringCap jitterFrames numBuffers : Nat) (st : FeederState)
    (op : PipeOp) : FeederState :=
  match op with
  | .submit data len =>
    { st with intake := (submitPacket true cap st.intake data len).1 }
  | .tick env =>
    (feederIter cap ringCap jitterFrames numBuffers env st).1

/-- Run a sequence of operations. -/
def runOps (cap ringCap jitterFrames numBuffers : Nat) (ops : List PipeOp)
    (st : FeederState) : FeederState :=
  ops.foldl (runOp cap ringCap jitterFrames numBuffers) st

/-- Well-formedness of the intake as established by `AudDecInit`
(lines 333-334) and preserved by the operations: the slot array has
capacity `cap`, the indices are in range, and the count is bounded. -/
def IntakeInv (cap : Nat) (st : IntakeState) : Prop :=
  st.slots.length = cap ∧ st.head < cap ∧ st.tail < cap ∧ st.count ≤ cap

/-- The boundedness invariant of the whole pipeline: the intake is
well-formed and the ring never exceeds its capacity. -/
def PipeInv (cap ringCap : Nat) (st : FeederState) : Prop :=
  IntakeInv cap st.intake ∧ st.ring.length ≤ ringCap

-- ─── Theorems ────────────────────────────────────────────────────────────────

/-- C1: the claim says the feeder's decode scratch buffer is sized with the
original `opusConfig.channelCount` for every accepted configuration. The
code contradicts it: `feederLoop` reads `s_channelCount` only after
`AudDecInit` has overwritten it with the effective (downmixed) count, while
the Opus decoder is created with the original count. At channelCount = 6,
samplesPerFrame = 240, with the 5.1 AL format unavailable, the scratch
buffer holds 240*2 = 480 samples but the decoder writes 240*6 = 1440. -/
theorem C1_decode_scratch_sized_with_downmixed_count :
    decodeBufElems ⟨6, 240, 48000⟩ false false = 480 ∧
    opusDecodeOutElems ⟨6, 240, 48000⟩ = 1440 ∧
    decodeBufElems ⟨6, 240, 48000⟩ false false <
      opusDecodeOutElems ⟨6, 240, 48000⟩ := by
  refine ⟨rfl, rfl, by decide⟩

/-- C9: the claim says `numBuffers ≤ 128` for every accepted configuration
including verbatim nonzero jitter overrides, so the 128-element
buffer-handle array of `feederLoop` is never overrun. With override
1000 ms, samplesPerFrame = 240, sampleRate = 48000 (5 ms frames), the code
computes `jitterFrames = 200` and `numBuffers = max(10, 200) = 200 > 128`,
contradicting the source comment `processed <= s_numBuffers, always fits`:
all 200 buffers are queued, so AL may report 200 processed buffers into
`ALuint bufs[128]`. -/
theorem C9_numBuffers_can_exceed_fixed_array :
    s_jitterFrames ⟨2, 240, 48000⟩ 1000 = 200 ∧
    s_numBuffers ⟨2, 240, 48000⟩ 1000 = 200 ∧
    128 < s_numBuffers ⟨2, 240, 48000⟩ 1000 := by
  refine ⟨rfl, rfl, by decide⟩

/-- C3 counterexample: the claim asserts an absolute minimum floor of 32 on
the ring capacity for every accepted configuration. With the default
jitter target (override 0) and 20 ms frames (samplesPerFrame = 960 at
48 kHz), `jitterFrames = 5` and `ringCap = 5 + 5*2 = 15 < 32`: no such
floor exists in the code. -/
theorem C3_counterexample_ringCap_floor :
    s_ringCap ⟨2, 960, 48000⟩ 0 = 15 ∧ ¬ 32 ≤ s_ringCap ⟨2, 960, 48000⟩ 0 := by
  refine ⟨rfl, by decide⟩

/-- C3 (amended): for every configuration, `pktCap = max(64, jitterFrames*4)`,
`numBuffers = max(10, jitterFrames)` (hence `≥`), and
`ringCap = jitterFrames + burstSlack` with `burstSlack = jitterFrames*2 ≥
jitterFrames`; the claimed absolute floor of 32 on the ring capacity does
not exist (the floors in the code are 64 on `pktCap` and 10 on
`numBuffers`). -/
theorem C3_derived_sizes (cfg : OpusConfig) (ov : Nat) :
    s_pktCap cfg ov = max 64 (s_jitterFrames cfg ov * 4) ∧
    s_numBuffers cfg ov = max 10 (s_jitterFrames cfg ov) ∧
    max 10 (s_jitterFrames cfg ov) ≤ s_numBuffers cfg ov ∧
    s_ringCap cfg ov = s_jitterFrames cfg ov + burstSlack cfg ov ∧
    s_jitterFrames cfg ov ≤ burstSlack cfg ov := by
  refine ⟨?_, rfl, le_refl _, rfl, ?_⟩
  · unfold s_pktCap
    rcases Nat.lt_or_ge (s_jitterFrames cfg ov * 4) 64 with h | h
    · simp [h, Nat.max_eq_left (Nat.le_of_lt h)]
    · simp [Nat.not_lt.mpr h, Nat.max_eq_right h]
  · unfold burstSlack; omega

/-- C2: for positive `samplesPerFrame` and `sampleRate` and any
(nonnegative) jitter override, the jitter depth computed by `AudDecInit`
equals the ceiling of `targetJitterMs / frameDurationMs`, where
`frameDurationMs = samplesPerFrame * 1000 / sampleRate` taken exactly (as
a rational) and `targetJitterMs` is the override when nonzero, else 100. -/
theorem C2_jitterFrames_is_ceiling (cfg : OpusConfig) (ov : Nat)
    (hs : 0 < cfg.samplesPerFrame) (_hr : 0 < cfg.sampleRate) :
    (s_jitterFrames cfg ov : ℤ) =
      ⌈(targetJitterMs ov : ℚ) /
        ((cfg.samplesPerFrame : ℚ) * 1000 / (cfg.sampleRate : ℚ))⌉ := by
  have hb : 0 < cfg.samplesPerFrame * 1000 := by positivity
  set t := targetJitterMs ov with ht
  set b := cfg.samplesPerFrame * 1000 with hbdef
  set a := t * cfg.sampleRate with hadef
  set q := (a + b - 1) / b with hqdef
  have hgoal : s_jitterFrames cfg ov = q := rfl
  have h1 : q * b ≤ a + b - 1 := Nat.div_mul_le_self _ _
  have h2 : a + b - 1 < (q + 1) * b :=
    (Nat.div_lt_iff_lt_mul hb).mp (Nat.lt_succ_self q)
  have hab : 1 ≤ a + b := by omega
  have hbQ : (0 : ℚ) < (b : ℚ) := by exact_mod_cast hb
  have hA : (a : ℤ) ≤ (q : ℤ) * (b : ℤ) := by
    have h2z := h2
    zify [hab] at h2z
    linarith
  have hB : ((q : ℤ) - 1) * (b : ℤ) < (a : ℤ) := by
    have h1z := h1
    zify [hab] at h1z
    have hbz : (1 : ℤ) ≤ (b : ℤ) := by exact_mod_cast hb
    linarith
  have hdiv : (t : ℚ) / ((cfg.samplesPerFrame : ℚ) * 1000 / (cfg.sampleRate : ℚ))
      = (a : ℚ) / (b : ℚ) := by
    rw [div_div_eq_mul_div, hadef, hbdef]
    push_cast
    ring_nf
  rw [hgoal, hdiv]
  symm
  rw [Int.ceil_eq_iff]
  constructor
  · rw [lt_div_iff₀ hbQ]
    exact_mod_cast hB
  · rw [div_le_iff₀ hbQ]
    exact_mod_cast hA

/-- C2 witness: samplesPerFrame = 240, sampleRate = 48000, override 0:
jitterFrames = 20 = ⌈100 / 5⌉. -/
theorem C2_jitterFrames_is_ceiling_witness :
    (0 : Nat) < 240 ∧ (0 : Nat) < 48000 ∧
    (s_jitterFrames ⟨2, 240, 48000⟩ 0 : ℤ) =
      ⌈(targetJitterMs 0 : ℚ) / (((240 : Nat) : ℚ) * 1000 / ((48000 : Nat) : ℚ))⌉ :=
  ⟨by decide, by decide,
    C2_jitterFrames_is_ceiling ⟨2, 240, 48000⟩ 0 (by decide) (by decide)⟩

/-- C4: behavior of `AudDecDecodeAndPlaySample` in its four cases: a no-op
when the feeder is not running; a logged drop with no queue change when the
length is out of range (≤ 0 or > 4096); when the queue is full, eviction of
exactly the oldest packet (head advances by exactly one, one slot is
overwritten, count ends back at `cap`, overflow logged) followed by
insertion of the new packet at the tail; otherwise plain insertion at the
tail with the count incremented — so a valid packet is always accepted. -/
theorem C4_submitPacket_cases (cap : Nat) (st : IntakeState)
    (data : List Nat) (len : Int)
    (hcap : 0 < cap) (hslots : st.slots.length = cap)
    (htail : st.tail < cap) :
    (submitPacket false cap st data len = (st, [])) ∧
    ((len ≤ 0 ∨ len > kMaxPacketBytes) →
      submitPacket true cap st data len = (st, [LogEvent.outOfRange len])) ∧
    (0 < len → len ≤ kMaxPacketBytes → st.count = cap →
      (submitPacket true cap st data len).1.head = (st.head + 1) % cap ∧
      (submitPacket true cap st data len).1.count = cap ∧
      (submitPacket true cap st data len).2 = [LogEvent.queueOverflow] ∧
      (submitPacket true cap st data len).1.tail = (st.tail + 1) % cap ∧
      (submitPacket true cap st data len).1.slots.getD st.tail default =
        ⟨data.take len.toNat, len⟩ ∧
      (∀ i, i ≠ st.tail →
        (submitPacket true cap st data len).1.slots.getD i default =
          st.slots.getD i default)) ∧
    (0 < len → len ≤ kMaxPacketBytes → st.count < cap →
      (submitPacket true cap st data len).1.head = st.head ∧
      (submitPacket true cap st data len).1.count = st.count + 1 ∧
      (submitPacket true cap st data len).2 = [] ∧
      (submitPacket true cap st data len).1.tail = (st.tail + 1) % cap ∧
      (submitPacket true cap st data len).1.slots.getD st.tail default =
        ⟨data.take len.toNat, len⟩ ∧
      (∀ i, i ≠ st.tail →
        (submitPacket true cap st data len).1.slots.getD i default =
          st.slots.getD i default)) := by
  refine ⟨rfl, ?_, ?_, ?_⟩
  · intro h
    unfold submitPacket
    rcases h with h | h
    · simp [h]
    · have : ¬ len ≤ 0 := by unfold kMaxPacketBytes at h; omega
      simp [this, h]
  · intro h1 h2 hfull
    have hpos : ¬ len ≤ 0 := by omega
    have hbig : ¬ len > kMaxPacketBytes := by omega
    have hge : st.count ≥ cap := Nat.le_of_eq hfull.symm
    refine ⟨?_, ?_, ?_, ?_, ?_, ?_⟩
    · simp [submitPacket, hpos, hbig, hge]
    · simp only [submitPacket, hpos, hbig, hge]
      simp
      omega
    · simp [submitPacket, hpos, hbig, hge]
    · simp [submitPacket, hpos, hbig, hge]
    · simp [submitPacket, hpos, hbig, hge, List.getD_eq_getElem?_getD,
        List.getElem?_set_self', hslots, htail]
    · intro i hi
      simp [submitPacket, hpos, hbig, hge, List.getD_eq_getElem?_getD,
        List.getElem?_set_ne (Ne.symm hi)]
  · intro h1 h2 hlt
    have hpos : ¬ len ≤ 0 := by omega
    have hbig : ¬ len > kMaxPacketBytes := by omega
    have hge : ¬ st.count ≥ cap := by omega
    refine ⟨?_, ?_, ?_, ?_, ?_, ?_⟩
    · simp [submitPacket, hpos, hbig, hge]
    · simp [submitPacket, hpos, hbig, hge]
    · simp [submitPacket, hpos, hbig, hge]
    · simp [submitPacket, hpos, hbig, hge]
    · simp [submitPacket, hpos, hbig, hge, List.getD_eq_getElem?_getD,
        List.getElem?_set_self', hslots, htail]
    · intro i hi
      simp [submitPacket, hpos, hbig, hge, List.getD_eq_getElem?_getD,
        List.getElem?_set_ne (Ne.symm hi)]

/-- C4 witness: a concrete full queue of capacity 2 with a valid packet. -/
theorem C4_submitPacket_cases_witness :
    (0 : Nat) < 2 ∧
    (submitPacket true 2 ⟨[⟨[1], 1⟩, ⟨[2], 1⟩], 0, 0, 2⟩ [7] 1).1.count = 2 ∧
    (submitPacket true 2 ⟨[⟨[1], 1⟩, ⟨[2], 1⟩], 0, 0, 2⟩ [7] 1).1.head = 1 ∧
    (submitPacket true 2 ⟨[⟨[1], 1⟩, ⟨[2], 1⟩], 0, 0, 2⟩ [7] 1).2 =
      [LogEvent.queueOverflow] := by
  have h := C4_submitPacket_cases 2 ⟨[⟨[1], 1⟩, ⟨[2], 1⟩], 0, 0, 2⟩ [7] 1
    (by decide) (by decide) (by decide)
  obtain ⟨-, -, h3, -⟩ := h
  obtain ⟨ha, hb, hc, -⟩ := h3 (by decide) (by decide) rfl
  exact ⟨by decide, hb, ha, hc⟩

/-- Predicate for batched-unqueue sink calls. -/
def SinkOp.isUnqueue : SinkOp → Bool
  | .unqueue _ => true
  | _ => false

/-- Predicate for batched-queue sink calls. -/
def SinkOp.isQueue : SinkOp → Bool
  | .queue _ => true
  | _ => false

/-- The real-frame loop uploads exactly the first `cnt` ring frames in FIFO
order and pops each of them once. -/
theorem realFeed_eq (ring : List Frame) (cnt : Nat) (h : cnt ≤ ring.length) :
    realFeed ring cnt = ((ring.take cnt).map SinkOp.upload, ring.drop cnt) := by
  induction cnt generalizing ring with
  | zero => simp [realFeed]
  | succ k ih =>
    cases ring with
    | nil => simp at h
    | cons f rest =>
      simp only [realFeed, List.take_succ_cons, List.map_cons, List.drop_succ_cons]
      rw [ih rest (by simpa using h)]

/-- The PLC loop uploads the scratch contents left by the `cnt` null-input
decode calls with indices `start, start+1, …`. -/
theorem plcFeed_eq (plcDec : PlcOracle) (start cnt : Nat) :
    plcFeed plcDec start cnt =
      (List.range' start cnt).map (fun i => SinkOp.upload (plcDec i).2) := by
  induction cnt generalizing start with
  | zero => simp [plcFeed]
  | succ k ih => simp [plcFeed, List.range'_succ, ih]

/-- The C expression `(processed < ringSize) ? processed : ringSize`. -/
theorem cMin_eq_min (p l : Nat) : (if p < l then p else l) = min p l := by
  rcases Nat.lt_or_ge p l with h | h
  · simp [h, Nat.min_eq_left (Nat.le_of_lt h)]
  · simp [Nat.not_lt.mpr h, Nat.min_eq_right h]

/-- The sink calls of one recycle step, in closed form: one batched
unqueue, the real uploads from the ring front, the PLC uploads, one batched
queue, and a conditional restart. -/
theorem feedProcessed_ops (numBuffers P plcTotal : Nat) (plcDec : PlcOracle)
    (srcPlaying : Bool) (ring : List Frame) :
    (feedProcessed numBuffers plcDec srcPlaying P ring plcTotal).1 =
      SinkOp.unqueue P ::
        ((ring.take (min P ring.length)).map SinkOp.upload ++
         (List.range' (min P ring.length) (P - min P ring.length)).map
           (fun i => SinkOp.upload (plcDec i).2) ++
         SinkOp.queue P :: (if srcPlaying then [] else [SinkOp.play])) := by
  simp only [feedProcessed, cMin_eq_min]
  rw [realFeed_eq ring _ (Nat.min_le_right _ _), plcFeed_eq]
  rcases Nat.eq_zero_or_pos (P - min P ring.length) with hz | hpos
  · have hnl : ¬ ring.length < P := by omega
    cases srcPlaying <;> simp [hz, hnl]
  · have hlt : ring.length < P := by omega
    cases srcPlaying <;> simp [Nat.pos_iff_ne_zero.mp hpos, hlt]

/-- The ring after one recycle step: the first `min P ringSize` frames are
popped. -/
theorem feedProcessed_ring (numBuffers P plcTotal : Nat) (plcDec : PlcOracle)
    (srcPlaying : Bool) (ring : List Frame) :
    (feedProcessed numBuffers plcDec srcPlaying P ring plcTotal).2.1 =
      ring.drop (min P ring.length) := by
  simp only [feedProcessed, cMin_eq_min]
  rw [realFeed_eq ring _ (Nat.min_le_right _ _)]

/-- C6: on a feeder tick with `processed = P > 0` (after jitter startup,
when `feedProcessed` runs): exactly `realCount = min(P, ringSize)` real
frames are uploaded, taken from the ring front in FIFO order and each
popped once (the remaining ring is `drop realCount`); `P - realCount` PLC
frames are uploaded from null-input decode calls; the `P` buffers are
unqueued in exactly one batched call and re-queued in exactly one batched
call; and `play()` is re-issued iff the source is not playing. -/
theorem C6_feedProcessed_tick (numBuffers P plcTotal : Nat) (plcDec : PlcOracle)
    (srcPlaying : Bool) (ring : List Frame) (_hP : 0 < P) :
    (feedProcessed numBuffers plcDec srcPlaying P ring plcTotal).1 =
      SinkOp.unqueue P ::
        ((ring.take (min P ring.length)).map SinkOp.upload ++
         (List.range' (min P ring.length) (P - min P ring.length)).map
           (fun i => SinkOp.upload (plcDec i).2) ++
         SinkOp.queue P :: (if srcPlaying then [] else [SinkOp.play])) ∧
    (feedProcessed numBuffers plcDec srcPlaying P ring plcTotal).2.1 =
      ring.drop (min P ring.length) ∧
    (feedProcessed numBuffers plcDec srcPlaying P ring plcTotal).1.filter
      SinkOp.isUnqueue = [SinkOp.unqueue P] ∧
    (feedProcessed numBuffers plcDec srcPlaying P ring plcTotal).1.filter
      SinkOp.isQueue = [SinkOp.queue P] ∧
    (SinkOp.play ∈ (feedProcessed numBuffers plcDec srcPlaying P ring plcTotal).1 ↔
      srcPlaying = false) := by
  have hops := feedProcessed_ops numBuffers P plcTotal plcDec srcPlaying ring
  have hring := feedProcessed_ring numBuffers P plcTotal plcDec srcPlaying ring
  have htailU : ∀ o ∈ ((ring.take (min P ring.length)).map SinkOp.upload ++
      (List.range' (min P ring.length) (P - min P ring.length)).map
        (fun i => SinkOp.upload (plcDec i).2) ++
      SinkOp.queue P :: (if srcPlaying then [] else [SinkOp.play])),
      SinkOp.isUnqueue o = false := by
    intro o ho
    simp only [List.mem_append, List.mem_cons, List.mem_map] at ho
    rcases ho with ((⟨f, -, rfl⟩ | ⟨i, -, rfl⟩) | rfl | hif)
    · rfl
    · rfl
    · rfl
    · cases srcPlaying with
      | true => simp at hif
      | false =>
        simp at hif
        subst hif
        rfl
  refine ⟨hops, hring, ?_, ?_, ?_⟩
  · rw [hops, List.filter_cons_of_pos rfl,
      List.filter_eq_nil_iff.mpr (by
        intro o ho
        simp [htailU o ho])]
  · rw [hops, List.filter_cons_of_neg (by simp [SinkOp.isQueue]),
      List.filter_append, List.filter_append,
      List.filter_eq_nil_iff.mpr (by
        intro o ho
        rcases List.mem_map.mp ho with ⟨f, -, rfl⟩
        simp [SinkOp.isQueue]),
      List.filter_eq_nil_iff.mpr (by
        intro o ho
        rcases List.mem_map.mp ho with ⟨i, -, rfl⟩
        simp [SinkOp.isQueue]),
      List.filter_cons_of_pos rfl]
    cases srcPlaying with
    | true => rfl
    | false => rfl
  · rw [hops]
    have h1 : SinkOp.play ∉ (ring.take (min P ring.length)).map SinkOp.upload := by
      intro h
      rcases List.mem_map.mp h with ⟨f, -, hf⟩
      exact SinkOp.noConfusion hf
    have h2 : SinkOp.play ∉
        (List.range' (min P ring.length) (P - min P ring.length)).map
          (fun i => SinkOp.upload (plcDec i).2) := by
      intro h
      rcases List.mem_map.mp h with ⟨i, -, hf⟩
      exact SinkOp.noConfusion hf
    cases srcPlaying with
    | true =>
      refine iff_of_false ?_ (by simp)
      intro hmem
      rcases List.mem_cons.mp hmem with h | hmem2
      · exact SinkOp.noConfusion h
      rcases List.mem_append.mp hmem2 with hmem3 | hmem4
      · rcases List.mem_append.mp hmem3 with h | h
        · exact h1 h
        · exact h2 h
      rcases List.mem_cons.mp hmem4 with h | hmem5
      · exact SinkOp.noConfusion h
      · simp at hmem5
    | false =>
      refine iff_of_true ?_ rfl
      simp

/-- C6 witness: P = 2 with a one-frame ring: one real upload, one PLC
upload, single batched unqueue and queue. -/
theorem C6_feedProcessed_tick_witness :
    (0 : Nat) < 2 ∧
    (feedProcessed 10 (fun _ => (1, [5, 5])) true 2 [[9, 9]] 0).1 =
      [SinkOp.unqueue 2, SinkOp.upload [9, 9], SinkOp.upload [5, 5],
       SinkOp.queue 2] := by
  have h := C6_feedProcessed_tick 10 2 0 (fun _ => (1, [5, 5])) true [[9, 9]]
    (by decide)
  exact ⟨by decide, by rw [h.1]; rfl⟩

/-- C7: when a decoded frame arrives while the ring is full, the newest
frame is evicted (`ringPopBack`), preserving the oldest `ringCap - 1`
frames that are next in line for playback, and the overflow log line is
emitted exactly for the first 3 occurrences and then every 100th. -/
theorem C7_ring_full_evicts_newest (ringCap : Nat) (dec : DecodeOracle)
    (slot : PacketSlot) (ring : List Frame) (ovf : Nat)
    (hfull : ring.length = ringCap) :
    (drainStep ringCap dec slot ring ovf).1 =
      (if (dec slot.data slot.length).1 > 0
       then ringPopBack ring ++ [(dec slot.data slot.length).2]
       else ringPopBack ring) ∧
    ringPopBack ring = ring.take (ringCap - 1) ∧
    (drainStep ringCap dec slot ring ovf).2.1 = ovf + 1 ∧
    (LogEvent.ringOverflow (ovf + 1) ∈ (drainStep ringCap dec slot ring ovf).2.2 ↔
      (ovf + 1 ≤ 3 ∨ (ovf + 1) % 100 = 0)) := by
  have hge : ring.length ≥ ringCap := Nat.le_of_eq hfull.symm
  refine ⟨?_, ?_, ?_, ?_⟩
  · unfold drainStep
    simp only [hge, if_pos]
    split <;> simp [ringPushBack]
  · unfold ringPopBack
    rw [List.dropLast_eq_take, hfull]
  · unfold drainStep
    simp only [hge, if_pos]
    split <;> rfl
  · unfold drainStep
    simp only [hge, if_pos]
    rcases Nat.lt_or_ge (ovf + 1) 4 with h3 | h3
    · have hc : (ovf + 1 ≤ 3 || (ovf + 1) % 100 == 0) = true := by
        simp
        omega
      simp only [hc, if_pos]
      split <;> simp <;> omega
    · rcases Nat.decEq ((ovf + 1) % 100) 0 with hm | hm
      · have hc : (ovf + 1 ≤ 3 || (ovf + 1) % 100 == 0) = false := by
          simp
          omega
        simp only [hc, if_neg]
        split <;> simp <;> omega
      · have hc : (ovf + 1 ≤ 3 || (ovf + 1) % 100 == 0) = true := by
          simp [hm]
        simp only [hc, if_pos]
        split <;> simp <;> omega

/-- C7 witness: a full 2-slot ring at the 4th overflow (not logged) — the
newest frame is evicted and the decoded frame pushed. -/
theorem C7_ring_full_evicts_newest_witness :
    ([[1], [2]] : List Frame).length = 2 ∧
    (drainStep 2 (fun _ _ => (1, [9])) ⟨[0], 1⟩ [[1], [2]] 3).1 = [[1], [9]] ∧
    (drainStep 2 (fun _ _ => (1, [9])) ⟨[0], 1⟩ [[1], [2]] 3).2.1 = 4 ∧
    LogEvent.ringOverflow 4 ∉ (drainStep 2 (fun _ _ => (1, [9])) ⟨[0], 1⟩ [[1], [2]] 3).2.2 := by
  have h := C7_ring_full_evicts_newest 2 (fun _ _ => (1, [9])) ⟨[0], 1⟩
    [[1], [2]] 3 rfl
  refine ⟨rfl, ?_, h.2.2.1, ?_⟩
  · rw [h.1]
    rfl
  · intro hmem
    have := h.2.2.2.mp hmem
    omega

/-- C10: the PLC path uploads the scratch buffer for every PLC slot
unconditionally — the result of `feedProcessed` depends only on the
contents the null-input decode leaves in the scratch buffer, never on its
return code; every PLC slot index produces an upload of that slot's scratch
contents; and `feedProcessed` emits no decode-failure log. In contrast, the
normal path (`drainStep`) discards the frame and logs `decodeFail` whenever
the decode returns `rc ≤ 0`. -/
theorem C10_plc_result_ignored (numBuffers P plcTotal ringCap ovf : Nat)
    (plcDec plcDec' : PlcOracle) (srcPlaying : Bool) (ring : List Frame)
    (dec : DecodeOracle) (slot : PacketSlot)
    (hsame : ∀ i, (plcDec i).2 = (plcDec' i).2)
    (hfail : (dec slot.data slot.length).1 ≤ 0) :
    feedProcessed numBuffers plcDec srcPlaying P ring plcTotal =
      feedProcessed numBuffers plcDec' srcPlaying P ring plcTotal ∧
    (∀ i, min P ring.length ≤ i → i < P →
      SinkOp.upload (plcDec i).2 ∈
        (feedProcessed numBuffers plcDec srcPlaying P ring plcTotal).1) ∧
    (∀ rc, LogEvent.decodeFail rc ∉
      (feedProcessed numBuffers plcDec srcPlaying P ring plcTotal).2.2.2) ∧
    (drainStep ringCap dec slot ring ovf).1 =
      (if ring.length ≥ ringCap then ringPopBack ring else ring) ∧
    LogEvent.decodeFail (dec slot.data slot.length).1 ∈
      (drainStep ringCap dec slot ring ovf).2.2 := by
  have hplc : ∀ start cnt, plcFeed plcDec start cnt = plcFeed plcDec' start cnt := by
    intro start cnt
    rw [plcFeed_eq, plcFeed_eq]
    exact List.map_congr_left fun i _ => by rw [hsame i]
  refine ⟨?_, ?_, ?_, ?_, ?_⟩
  · simp only [feedProcessed, hplc]
  · intro i hlo hhi
    simp only [feedProcessed, cMin_eq_min]
    rw [realFeed_eq ring _ (Nat.min_le_right _ _), plcFeed_eq]
    have hpos : 0 < P - min P ring.length := by omega
    simp only [hpos, gt_iff_lt, if_pos]
    refine List.mem_cons_of_mem _ (List.mem_append_left _ (List.mem_append_right _ ?_))
    exact List.mem_map_of_mem _ (List.mem_range'_1.mpr ⟨hlo, by omega⟩)
  · intro rc
    simp only [feedProcessed, cMin_eq_min]
    rw [realFeed_eq ring _ (Nat.min_le_right _ _)]
    intro hmem
    simp only [List.mem_append] at hmem
    rcases hmem with ((h | h) | h) | h
    · revert h
      split <;> simp
    · revert h
      split <;> simp
    · revert h
      split <;> simp
    · revert h
      split <;> simp
  · have hnotpos : ¬ (dec slot.data slot.length).1 > 0 := by omega
    rcases Nat.lt_or_ge ring.length ringCap with hlt | hge
    · have hnot : ¬ ring.length ≥ ringCap := by omega
      unfold drainStep
      simp [hnot, hnotpos]
    · unfold drainStep
      simp [hge, hnotpos]
  · have hnotpos : ¬ (dec slot.data slot.length).1 > 0 := by omega
    rcases Nat.lt_or_ge ring.length ringCap with hlt | hge
    · have hnot : ¬ ring.length ≥ ringCap := by omega
      unfold drainStep
      simp [hnot, hnotpos]
    · unfold drainStep
      simp [hge, hnotpos]

/-- C10 witness: a PLC decode returning rc = -1 still yields the upload;
the normal path with rc = -1 logs and discards. -/
theorem C10_plc_result_ignored_witness :
    (∀ i : Nat, ((fun _ => ((-1 : Int), ([3] : Frame))) i).2 =
      ((fun _ => ((7 : Int), ([3] : Frame))) i).2) ∧
    ((fun (_ : List Nat) (_ : Int) => ((-1 : Int), ([] : Frame)))
        (⟨[0], 1⟩ : PacketSlot).data (⟨[0], 1⟩ : PacketSlot).length).1 ≤ 0 ∧
    SinkOp.upload [3] ∈
      (feedProcessed 10 (fun _ => ((-1 : Int), ([3] : Frame))) true 1 [] 0).1 ∧
    LogEvent.decodeFail (-1) ∈
      (drainStep 4 (fun _ _ => ((-1 : Int), ([] : Frame))) ⟨[0], 1⟩ [] 0).2.2 := by
  have h := C10_plc_result_ignored 10 1 0 4 0
    (fun _ => ((-1 : Int), ([3] : Frame))) (fun _ => ((7 : Int), ([3] : Frame)))
    true [] (fun _ _ => ((-1 : Int), ([] : Frame))) ⟨[0], 1⟩
    (fun _ => rfl) (by decide)
  exact ⟨fun _ => rfl, by decide, h.2.1 0 (by decide) (by decide), h.2.2.2.2⟩

/-- Unfolding of `feederIter` in terms of projections of the drain result
(definitional, by structure eta). -/
theorem feederIter_eq (cap ringCap jitterFrames numBuffers : Nat)
    (env : TickEnv) (st : FeederState) :
    feederIter cap ringCap jitterFrames numBuffers env st =
      (let d := drainAll cap ringCap env.dec st.intake st.ring st.overflowCount
      if !st.jitterReady && d.2.1.length < jitterFrames then
        ({ st with intake := d.1, ring := d.2.1, overflowCount := d.2.2.1 },
         [], d.2.2.2)
      else
        let readyLogs := if !st.jitterReady then [LogEvent.jitterReadyMsg] else []
        if env.processed = 0 then
          ({ st with intake := d.1, ring := d.2.1, overflowCount := d.2.2.1,
                     jitterReady := true }, [], d.2.2.2 ++ readyLogs)
        else
          let f := feedProcessed numBuffers env.plcDec env.srcPlaying
            env.processed d.2.1 st.plcTotal
          ({ intake := d.1, ring := f.2.1, jitterReady := true,
             overflowCount := d.2.2.1, plcTotal := f.2.2.1 },
           f.1, d.2.2.2 ++ readyLogs ++ f.2.2.2)) := rfl

/-- `drainAll` on an empty intake is a no-op. -/
theorem drainAll_eq_zero (cap ringCap : Nat) (dec : DecodeOracle)
    (intake : IntakeState) (ring : List Frame) (ovf : Nat)
    (h : intake.count = 0) :
    drainAll cap ringCap dec intake ring ovf = (intake, ring, ovf, []) := by
  unfold drainAll
  simp [h]

/-- One unfolding of `drainAll` on a nonempty intake, in projection form. -/
theorem drainAll_eq_step (cap ringCap : Nat) (dec : DecodeOracle)
    (intake : IntakeState) (ring : List Frame) (ovf : Nat)
    (h : intake.count ≠ 0) :
    drainAll cap ringCap dec intake ring ovf =
      (let slot := intake.slots.getD intake.head default
       let intake1 : IntakeState :=
         { intake with head := (intake.head + 1) % cap, count := intake.count - 1 }
       let s := drainStep ringCap dec slot ring ovf
       let r := drainAll cap ringCap dec intake1 s.1 s.2.1
       (r.1, r.2.1, r.2.2.1, s.2.2 ++ r.2.2.2)) := by
  conv_lhs => rw [drainAll]
  simp [h]

/-- The drain loop only ever logs ring-overflow and decode-failure lines. -/
theorem drainStep_logs_shape (ringCap : Nat) (dec : DecodeOracle)
    (slot : PacketSlot) (ring : List Frame) (ovf : Nat) :
    ∀ e ∈ (drainStep ringCap dec slot ring ovf).2.2,
      (∃ k, e = LogEvent.ringOverflow k) ∨ (∃ rc, e = LogEvent.decodeFail rc) := by
  intro e he
  unfold drainStep at he
  by_cases hful : ring.length ≥ ringCap
  · by_cases hd : (dec slot.data slot.length).1 > 0
    · simp only [hful, hd, if_true, if_pos] at he
      revert he
      split
      · intro h
        exact Or.inl ⟨ovf + 1, List.mem_singleton.mp h⟩
      · intro h
        simp at h
    · simp only [hful, hd, if_true, if_pos, if_neg] at he
      rcases List.mem_append.mp he with h | h
      · revert h
        split
        · intro h
          exact Or.inl ⟨ovf + 1, List.mem_singleton.mp h⟩
        · intro h
          simp at h
      · exact Or.inr ⟨_, List.mem_singleton.mp h⟩
  · by_cases hd : (dec slot.data slot.length).1 > 0
    · simp only [hful, hd, if_pos, if_neg] at he
      simp at he
    · simp only [hful, hd, if_neg] at he
      rcases List.mem_append.mp he with h | h
      · simp at h
      · exact Or.inr ⟨_, List.mem_singleton.mp h⟩

/-- No iteration of the drain loop emits the jitter-ready message. -/
theorem drainAll_no_ready_log (cap ringCap : Nat) (dec : DecodeOracle) :
    ∀ n (intake : IntakeState) (ring : List Frame) (ovf : Nat),
      intake.count ≤ n →
      LogEvent.jitterReadyMsg ∉ (drainAll cap ringCap dec intake ring ovf).2.2.2 := by
  intro n
  induction n with
  | zero =>
    intro intake ring ovf hn
    rw [drainAll_eq_zero cap ringCap dec intake ring ovf (by omega)]
    simp
  | succ k ih =>
    intro intake ring ovf hn
    by_cases h0 : intake.count = 0
    · rw [drainAll_eq_zero cap ringCap dec intake ring ovf h0]
      simp
    · rw [drainAll_eq_step cap ringCap dec intake ring ovf h0]
      simp only [List.mem_append, not_or]
      constructor
      · intro hmem
        rcases drainStep_logs_shape ringCap dec _ ring ovf _ hmem with ⟨_, h⟩ | ⟨_, h⟩ <;>
          exact LogEvent.noConfusion h
      · exact ih _ _ _ (by simp; omega)

/-- C8: the jitter-startup gate. While `jitterReady` is false and the
post-drain ring is below `jitterFrames`, an iteration issues no sink call
at all (in particular no PCM upload) and the gate stays closed with no
ready log. The first iteration whose post-drain ring reaches
`jitterFrames` emits the "jitter buffer ready" log and sets `jitterReady`.
Once `jitterReady` is set it survives every later iteration, and an
iteration with `processed ≥ 1` always issues the batched sink calls —
regardless of the ring level, which is never consulted again. -/
theorem C8_jitter_startup_gate (cap ringCap jitterFrames numBuffers : Nat)
    (env : TickEnv) (st : FeederState) :
    (st.jitterReady = false →
      (drainAll cap ringCap env.dec st.intake st.ring st.overflowCount).2.1.length
          < jitterFrames →
      (feederIter cap ringCap jitterFrames numBuffers env st).2.1 = [] ∧
      (feederIter cap ringCap jitterFrames numBuffers env st).1.jitterReady = false ∧
      LogEvent.jitterReadyMsg ∉
        (feederIter cap ringCap jitterFrames numBuffers env st).2.2) ∧
    (st.jitterReady = false →
      jitterFrames ≤
        (drainAll cap ringCap env.dec st.intake st.ring st.overflowCount).2.1.length →
      LogEvent.jitterReadyMsg ∈
        (feederIter cap ringCap jitterFrames numBuffers env st).2.2 ∧
      (feederIter cap ringCap jitterFrames numBuffers env st).1.jitterReady = true) ∧
    (st.jitterReady = true →
      (feederIter cap ringCap jitterFrames numBuffers env st).1.jitterReady = true ∧
      (0 < env.processed →
        SinkOp.unqueue env.processed ∈
          (feederIter cap ringCap jitterFrames numBuffers env st).2.1 ∧
        (feederIter cap ringCap jitterFrames numBuffers env st).2.1 ≠ [])) := by
  rw [feederIter_eq]
  set d := drainAll cap ringCap env.dec st.intake st.ring st.overflowCount with hd
  refine ⟨?_, ?_, ?_⟩
  · intro hjr hlen
    simp only [hjr, Bool.not_false, Bool.true_and, hlen, if_pos]
    exact ⟨rfl, rfl,
      drainAll_no_ready_log cap ringCap env.dec st.intake.count st.intake
        st.ring st.overflowCount (Nat.le_refl _)⟩
  · intro hjr hlen
    have hnot : ¬ d.2.1.length < jitterFrames := by omega
    simp only [hjr, Bool.not_false, Bool.true_and, hnot, if_neg, if_false]
    rcases Nat.eq_zero_or_pos env.processed with hz | hpz
    · simp [hz]
    · simp [Nat.pos_iff_ne_zero.mp hpz]
  · intro hjr
    simp only [hjr, Bool.not_true, Bool.false_and, Bool.false_eq_true, if_false]
    rcases Nat.eq_zero_or_pos env.processed with hz | hpz
    · simp [hz]
    · have hops := feedProcessed_ops numBuffers env.processed st.plcTotal
        env.plcDec env.srcPlaying d.2.1
      simp only [Nat.pos_iff_ne_zero.mp hpz, if_neg, if_false]
      refine ⟨by trivial, fun _ => ⟨?_, ?_⟩⟩
      · rw [hops]
        exact List.mem_cons_self _ _
      · rw [hops]
        exact List.cons_ne_nil _ _

/-- C8 witness: jitterFrames = 10 with a 9-frame post-drain ring (empty
intake, so the drain is a no-op): no sink call, gate stays closed; with a
10th frame present the ready log is emitted. -/
theorem C8_jitter_startup_gate_witness :
    ((⟨⟨[], 0, 0, 0⟩, List.replicate 9 ([0] : Frame), false, 0, 0⟩ :
        FeederState).jitterReady = false) ∧
    ((drainAll 64 30 (fun _ _ => (1, [0]))
        (⟨[], 0, 0, 0⟩ : IntakeState) (List.replicate 9 ([0] : Frame)) 0).2.1.length
        < 10) ∧
    (feederIter 64 30 10 10 ⟨fun _ _ => (1, [0]), 1, fun _ => (1, [0]), true⟩
      ⟨⟨[], 0, 0, 0⟩, List.replicate 9 ([0] : Frame), false, 0, 0⟩).2.1 = [] ∧
    ((drainAll 64 30 (fun _ _ => (1, [0]))
        (⟨[], 0, 0, 0⟩ : IntakeState) (List.replicate 10 ([0] : Frame)) 0).2.1.length
        ≥ 10) ∧
    LogEvent.jitterReadyMsg ∈
      (feederIter 64 30 10 10 ⟨fun _ _ => (1, [0]), 1, fun _ => (1, [0]), true⟩
        ⟨⟨[], 0, 0, 0⟩, List.replicate 10 ([0] : Frame), false, 0, 0⟩).2.2 := by
  have hdrain9 : drainAll 64 30 (fun _ _ => (1, [0]))
      (⟨[], 0, 0, 0⟩ : IntakeState) (List.replicate 9 ([0] : Frame)) 0 =
      (⟨[], 0, 0, 0⟩, List.replicate 9 ([0] : Frame), 0, []) := by
    unfold drainAll
    rfl
  have hdrain10 : drainAll 64 30 (fun _ _ => (1, [0]))
      (⟨[], 0, 0, 0⟩ : IntakeState) (List.replicate 10 ([0] : Frame)) 0 =
      (⟨[], 0, 0, 0⟩, List.replicate 10 ([0] : Frame), 0, []) := by
    unfold drainAll
    rfl
  have h1 := C8_jitter_startup_gate 64 30 10 10
    ⟨fun _ _ => (1, [0]), 1, fun _ => (1, [0]), true⟩
    ⟨⟨[], 0, 0, 0⟩, List.replicate 9 ([0] : Frame), false, 0, 0⟩
  have h2 := C8_jitter_startup_gate 64 30 10 10
    ⟨fun _ _ => (1, [0]), 1, fun _ => (1, [0]), true⟩
    ⟨⟨[], 0, 0, 0⟩, List.replicate 10 ([0] : Frame), false, 0, 0⟩
  refine ⟨rfl, ?_, ?_, ?_, ?_⟩
  · rw [hdrain9]
    decide
  · exact (h1.1 rfl (by rw [hdrain9]; decide)).1
  · rw [hdrain10]
    decide
  · exact (h2.2.1 rfl (by rw [hdrain10]; decide)).1

/-- The pipeline state right after `AudDecInit`: all indices zeroed
(lines 328, 334), the ring empty, the gate closed. -/
def initState (cap : Nat) : FeederState :=
  { intake := { slots := List.replicate cap default, head := 0, tail := 0, count := 0 },
    ring := [], jitterReady := false, overflowCount := 0, plcTotal := 0 }

/-- `AudDecDecodeAndPlaySample` preserves intake well-formedness. -/
theorem submitPacket_inv (cap : Nat) (st : IntakeState) (data : List Nat)
    (len : Int) (hcap : 0 < cap) (h : IntakeInv cap st) :
    IntakeInv cap (submitPacket true cap st data len).1 := by
  obtain ⟨hl, hh, ht, hc⟩ := h
  by_cases h0 : len ≤ 0
  · have e : submitPacket true cap st data len = (st, [.outOfRange len]) := by
      simp [submitPacket, h0]
    rw [e]
    exact ⟨hl, hh, ht, hc⟩
  · by_cases h1 : len > kMaxPacketBytes
    · have e : submitPacket true cap st data len = (st, [.outOfRange len]) := by
        simp [submitPacket, h0, h1]
      rw [e]
      exact ⟨hl, hh, ht, hc⟩
    · by_cases h2 : st.count ≥ cap
      · have e : (submitPacket true cap st data len).1 =
            { slots := st.slots.set st.tail ⟨data.take len.toNat, len⟩,
              head := (st.head + 1) % cap, tail := (st.tail + 1) % cap,
              count := st.count - 1 + 1 } := by
          simp [submitPacket, h0, h1, h2]
        rw [e]
        exact ⟨by simpa using hl, Nat.mod_lt _ hcap, Nat.mod_lt _ hcap,
          show st.count - 1 + 1 ≤ cap by omega⟩
      · have e : (submitPacket true cap st data len).1 =
            { slots := st.slots.set st.tail ⟨data.take len.toNat, len⟩,
              head := st.head, tail := (st.tail + 1) % cap,
              count := st.count + 1 } := by
          simp [submitPacket, h0, h1, h2]
        rw [e]
        exact ⟨by simpa using hl, hh, Nat.mod_lt _ hcap,
          show st.count + 1 ≤ cap by omega⟩

/-- One drain iteration keeps the ring within its capacity: a full ring
first loses its newest frame, so the subsequent push cannot exceed
`ringCap`. -/
theorem drainStep_ring_bound (ringCap : Nat) (hring : 0 < ringCap)
    (dec : DecodeOracle) (slot : PacketSlot) (ring : List Frame) (ovf : Nat)
    (h : ring.length ≤ ringCap) :
    (drainStep ringCap dec slot ring ovf).1.length ≤ ringCap := by
  unfold drainStep
  by_cases hful : ring.length ≥ ringCap
  · by_cases hd : (dec slot.data slot.length).1 > 0 <;>
      simp [hful, hd, ringPushBack, ringPopBack] <;> omega
  · by_cases hd : (dec slot.data slot.length).1 > 0 <;>
      simp [hful, hd, ringPushBack, ringPopBack] <;> omega

/-- Draining the whole intake preserves intake well-formedness and the ring
bound. -/
theorem drainAll_inv (cap ringCap : Nat) (hcap : 0 < cap) (hring : 0 < ringCap)
    (dec : DecodeOracle) :
    ∀ n (intake : IntakeState) (ring : List Frame) (ovf : Nat),
      intake.count ≤ n → IntakeInv cap intake → ring.length ≤ ringCap →
      IntakeInv cap (drainAll cap ringCap dec intake ring ovf).1 ∧
      (drainAll cap ringCap dec intake ring ovf).2.1.length ≤ ringCap := by
  intro n
  induction n with
  | zero =>
    intro intake ring ovf hn hint hr
    rw [drainAll_eq_zero _ _ _ _ _ _ (by omega)]
    exact ⟨hint, hr⟩
  | succ k ih =>
    intro intake ring ovf hn hint hr
    by_cases h0 : intake.count = 0
    · rw [drainAll_eq_zero _ _ _ _ _ _ h0]
      exact ⟨hint, hr⟩
    · rw [drainAll_eq_step _ _ _ _ _ _ h0]
      obtain ⟨hl, hh, ht, hc⟩ := hint
      refine ih _ _ _ ?_ ⟨?_, ?_, ?_, ?_⟩ (drainStep_ring_bound _ hring _ _ _ _ hr)
      · show intake.count - 1 ≤ k
        omega
      · show intake.slots.length = cap
        exact hl
      · show (intake.head + 1) % cap < cap
        exact Nat.mod_lt _ hcap
      · show intake.tail < cap
        exact ht
      · show intake.count - 1 ≤ cap
        omega

/-- The recycle step only pops ring frames, so the ring bound persists. -/
theorem feedProcessed_ring_bound (ringCap numBuffers P plcTotal : Nat)
    (plcDec : PlcOracle) (srcPlaying : Bool) (ring : List Frame)
    (h : ring.length ≤ ringCap) :
    (feedProcessed numBuffers plcDec srcPlaying P ring plcTotal).2.1.length ≤ ringCap := by
  rw [feedProcessed_ring]
  simp only [List.length_drop]
  omega

/-- Every pipeline operation preserves the boundedness invariant. -/
theorem runOp_inv (cap ringCap jitterFrames numBuffers : Nat)
    (hcap : 0 < cap) (hring : 0 < ringCap) (st : FeederState) (op : PipeOp)
    (h : PipeInv cap ringCap st) :
    PipeInv cap ringCap (runOp cap ringCap jitterFrames numBuffers st op) := by
  obtain ⟨hint, hr⟩ := h
  cases op with
  | submit data len =>
    exact ⟨submitPacket_inv cap st.intake data len hcap hint, hr⟩
  | tick env =>
    show PipeInv cap ringCap (feederIter cap ringCap jitterFrames numBuffers env st).1
    have hd := drainAll_inv cap ringCap hcap hring env.dec st.intake.count
      st.intake st.ring st.overflowCount (Nat.le_refl _) hint hr
    rw [feederIter_eq]
    by_cases h1 : (!st.jitterReady &&
        decide ((drainAll cap ringCap env.dec st.intake st.ring
          st.overflowCount).2.1.length < jitterFrames)) = true
    · simp only [h1, if_pos]
      exact ⟨hd.1, hd.2⟩
    · simp only [h1, Bool.false_eq_true, if_neg, if_false]
      by_cases h2 : env.processed = 0
      · simp only [h2, if_pos]
        exact ⟨hd.1, hd.2⟩
      · simp only [h2, if_neg, if_false]
        exact ⟨hd.1, feedProcessed_ring_bound ringCap numBuffers
          env.processed st.plcTotal env.plcDec env.srcPlaying _ hd.2⟩

/-- C5: boundedness. Starting from any state satisfying the invariant — in
particular the post-init state — every interleaving of `submitPacket`
calls and feeder iterations keeps `intake.count ≤ pktCap` (the lower bound
`0 ≤` is inherent to ℕ) and `ringSize ≤ ringCap`; moreover each individual
feeder checkpoint preserves the ring bound: every packet decoded into the
ring (`drainStep`) and every batch of uploads (`feedProcessed`). -/
theorem C5_bounded_intake_and_ring (cap ringCap jitterFrames numBuffers : Nat)
    (hcap : 0 < cap) (hring : 0 < ringCap)
    (ops : List PipeOp) (st : FeederState) (h : PipeInv cap ringCap st) :
    PipeInv cap ringCap (initState cap) ∧
    PipeInv cap ringCap (runOps cap ringCap jitterFrames numBuffers ops st) ∧
    (∀ dec slot ring ovf, List.length ring ≤ ringCap →
      (drainStep ringCap dec slot ring ovf).1.length ≤ ringCap) ∧
    (∀ plcDec srcPlaying P ring plcTotal, List.length ring ≤ ringCap →
      (feedProcessed numBuffers plcDec srcPlaying P ring plcTotal).2.1.length
        ≤ ringCap) := by
  refine ⟨⟨⟨by simp [initState], by simpa [initState] using hcap,
      by simpa [initState] using hcap, by simp [initState]⟩, by simp [initState]⟩,
    ?_,
    fun dec slot ring ovf hr => drainStep_ring_bound _ hring _ _ _ _ hr,
    fun plcDec sp P ring t hr =>
      feedProcessed_ring_bound ringCap numBuffers P t plcDec sp ring hr⟩
  induction ops generalizing st with
  | nil => exact h
  | cons op rest ih =>
    exact ih _ (runOp_inv cap ringCap jitterFrames numBuffers hcap hring st op h)

/-- C5 witness: capacities 64/30 from a small concrete run (one submit and
one tick from the init state). -/
theorem C5_bounded_intake_and_ring_witness :
    (0 : Nat) < 64 ∧ (0 : Nat) < 30 ∧
    PipeInv 64 30 (runOps 64 30 10 10
      [PipeOp.submit [1] 1,
       PipeOp.tick ⟨fun _ _ => (1, [0]), 1, fun _ => (1, [0]), true⟩]
      (initState 64)) := by
  have h0 : PipeInv 64 30 (initState 64) := by
    refine ⟨⟨?_, ?_, ?_, ?_⟩, ?_⟩ <;> simp [initState, IntakeInv]
  have h := C5_bounded_intake_and_ring 64 30 10 10 (by decide) (by decide)
    [PipeOp.submit [1] 1,
     PipeOp.tick ⟨fun _ _ => (1, [0]), 1, fun _ => (1, [0]), true⟩]
    (initState 64) h0
  exact ⟨by decide, by decide, h.2.1⟩

end AudDec
